import Mathlib

/-
  Shallow embedding of the chunked-job progress and aggregation engine of
  nguyethang083/browser-history-backend
  (src/src/browser-history/browser-history.service.ts).

  Modelling conventions:
  * TypeScript/JS numbers standing for visit counts and indices are modelled
    as Int (counts) and Nat (indices); no claim depends on float64 rounding.
  * A JS object used as a string-keyed map is modelled as an insertion-ordered
    association list; assignment to an existing key updates it in place,
    assignment to a fresh key appends it at the end, exactly as
    Object.entries enumeration order behaves.  The same model is used for the
    ES Map in aggregateReports, whose iteration order is insertion order.
  * The Redis store is accessed only at keys derived from a fixed (date,
    email) pair, so a job state carries exactly the four slots the service
    touches for one job.
-/

namespace BrowserHistory

/-- One entry of a report's mostVisitedSites list (field of the source
interface DailyReport). -/
structure SiteVisit where
  url : String
  category : String
  visits : Int
deriving DecidableEq, Repr

/-- The mostFrequentCategory field of the source interface DailyReport. -/
structure CategoryFreq where
  category : String
  frequency : Int
deriving DecidableEq, Repr

/-- The DailyReport interface of browser-history.service.ts.  categories is a
JS object used as a map from category name to visit count, modelled as an
insertion-ordered association list. -/
structure DailyReport where
  totalVisits : Int
  categories : List (String × Int)
  mostVisitedSites : List SiteVisit
  mostFrequentCategory : CategoryFreq
  mostFrequentSite : SiteVisit
deriving DecidableEq, Repr

/-- The neutral zero report returned by analyzeChunk on classifier failure
(browser-history.service.ts lines 91-97) and by finalizeDailyReport when no
chunk reports exist (lines 190-196). -/
def neutralReport : DailyReport :=
  { totalVisits := 0
  , categories := []
  , mostVisitedSites := []
  , mostFrequentCategory := { category := "General", frequency := 0 }
  , mostFrequentSite := { url := "", category := "General", visits := 0 } }

/-! ### URL model

extractMainUrl calls the external WHATWG URL parser (Node's URL class).
The parser is not code of this repository; it is modelled after the spec's
collaborator contract (glossary: "Origin: scheme+host portion of a URL"):
an input of the shape scheme://host[path] parses into its parts, anything
else throws.  Ports are kept as part of the host text; userinfo, IDN and
special-scheme origin rules are out of scope — no claim depends on them. -/

structure UrlParts where
  scheme : String
  host : String
  pathname : String
deriving DecidableEq, Repr

def isAsciiAlpha (c : Char) : Bool :=
  (decide (97 ≤ c.toNat) && decide (c.toNat ≤ 122)) ||
    (decide (65 ≤ c.toNat) && decide (c.toNat ≤ 90))

/-- Model of the external URL constructor: some parts on a well-formed
absolute URL, none when the constructor would throw. -/
def parseUrl (s : String) : Option UrlParts :=
  let cs := s.toList
  let schemeChars := cs.takeWhile isAsciiAlpha
  let rest := cs.drop schemeChars.length
  match schemeChars, rest with
  | [], _ => none
  | _ :: _, ':' :: '/' :: '/' :: afterScheme =>
    let hostChars := afterScheme.takeWhile (fun c => c != '/')
    let pathChars := afterScheme.drop hostChars.length
    if hostChars.isEmpty then none
    else
      some { scheme := String.mk schemeChars
           , host := String.mk hostChars
           , pathname := if pathChars.isEmpty then "/" else String.mk pathChars }
  | _ :: _, _ => none

/-- url.origin of the modelled URL: scheme + host. -/
def urlOrigin (u : UrlParts) : String :=
  u.scheme ++ "://" ++ u.host

/-- Number of slashes in a string; pathname.split with separator slash has
length slashCount + 1. -/
def slashCount (s : String) : Nat :=
  (s.toList.filter (fun c => c == '/')).length

/-- extractMainUrl (browser-history.service.ts lines 292-311).  Both branches
of the source if-statement return the origin followed by a slash; the
condition (trivial pathname: empty, a bare slash, or at most one path
segment, i.e. pathname.split length at most 2) is kept for fidelity.
On a parse failure the original string is returned unchanged. -/
def extractMainUrl (fullUrl : String) : String :=
  match parseUrl fullUrl with
  | some u =>
    if u.pathname = "" ∨ u.pathname = "/" ∨ slashCount u.pathname + 1 ≤ 2 then
      urlOrigin u ++ "/"
    else
      urlOrigin u ++ "/"
  | none => fullUrl

/-! ### Insertion-ordered association maps -/

/-- Lookup in an insertion-ordered association list (first match). -/
def lookupA {κ β : Type} [DecidableEq κ] : List (κ × β) → κ → Option β
  | [], _ => none
  | (k', v) :: rest, k => if k' = k then some v else lookupA rest k

/-- Keyed update of an insertion-ordered association list: an existing key is
updated in place, a fresh key is appended at the end — the behaviour of both
JS object assignment and Map.set. -/
def updateAssoc {κ β : Type} [DecidableEq κ] (l : List (κ × β)) (k : κ)
    (f : Option β → β) : List (κ × β) :=
  match l with
  | [] => [(k, f none)]
  | (k', v) :: rest =>
    if k' = k then (k', f (some v)) :: rest else (k', v) :: updateAssoc rest k f

/-! ### aggregateReports (browser-history.service.ts lines 221-290) -/

/-- Value stored in the siteVisitMap of aggregateReports. -/
structure SiteAgg where
  visits : Int
  category : String
deriving DecidableEq, Repr

/-- The mutable accumulator of aggregateReports: the three fields written
inside the for-loop (totalVisits, categories, siteVisitMap). -/
structure AggState where
  totalVisits : Int
  categories : List (String × Int)
  siteMap : List (String × SiteAgg)
deriving DecidableEq, Repr

/-- One step of the category aggregation loop:
categories of key gets (previous or 0) + count. -/
def catStep (cats : List (String × Int)) (entry : String × Int) :
    List (String × Int) :=
  updateAssoc cats entry.1 (fun old => old.getD 0 + entry.2)

/-- One step of the site aggregation loop: group by extractMainUrl of the
site URL; visits accumulate, category is overwritten by the latest
contribution (last-write-wins, as in the source). -/
def siteStep (m : List (String × SiteAgg)) (site : SiteVisit) :
    List (String × SiteAgg) :=
  updateAssoc m (extractMainUrl site.url) (fun old =>
    match old with
    | some e => { visits := e.visits + site.visits, category := site.category }
    | none => { visits := site.visits, category := site.category })

/-- Body of the for-loop of aggregateReports for one report. -/
def reportStep (st : AggState) (r : DailyReport) : AggState :=
  { totalVisits := st.totalVisits + r.totalVisits
  , categories := r.categories.foldl catStep st.categories
  , siteMap := r.mostVisitedSites.foldl siteStep st.siteMap }

def initialAggState : AggState :=
  { totalVisits := 0, categories := [], siteMap := [] }

/-- Stable insertion step for descending order on an integer key: the new
element is placed after every element whose key is at least as large. -/
def insertDescBy {α : Type} (key : α → Int) (x : α) : List α → List α
  | [] => [x]
  | y :: ys => if key x ≤ key y then y :: insertDescBy key x ys else x :: y :: ys

/-- Stable descending sort by an integer key.  ES2019 Array.prototype.sort is
stable, and with the comparator b.key - a.key its output is the unique
descending, stable reordering of the input, which this insertion sort
computes. -/
def sortDescBy {α : Type} (key : α → Int) (l : List α) : List α :=
  l.foldl (fun acc x => insertDescBy key x acc) []

/-- Map entry to output shape, as in the Array.from map of the source. -/
def siteEntryToVisit (e : String × SiteAgg) : SiteVisit :=
  { url := e.1, category := e.2.category, visits := e.2.visits }

/-- The for-loop of aggregateReports over the whole report sequence. -/
def aggregateFold (reports : List DailyReport) : AggState :=
  reports.foldl reportStep initialAggState

/-- The finishing section of aggregateReports (lines 262-289): sort the site
groups by visits descending (stable) and truncate to 5, pick the most
frequent category as the head of the stable descending sort of the
aggregated categories, and the most frequent site as the head of the
truncated site list; the defaults of the accumulator survive when the
respective list is empty. -/
def aggregateFinish (st : AggState) : DailyReport :=
  { totalVisits := st.totalVisits
  , categories := st.categories
  , mostVisitedSites :=
      (sortDescBy (fun s => s.visits) (st.siteMap.map siteEntryToVisit)).take 5
  , mostFrequentCategory :=
      match sortDescBy (fun e => e.2) st.categories with
      | [] => { category := "General", frequency := 0 }
      | c :: _ => { category := c.1, frequency := c.2 }
  , mostFrequentSite :=
      match (sortDescBy (fun s => s.visits) (st.siteMap.map siteEntryToVisit)).take 5 with
      | [] => { url := "", category := "General", visits := 0 }
      | s :: _ => s }

/-- aggregateReports (browser-history.service.ts lines 221-290). -/
def aggregateReports (reports : List DailyReport) : DailyReport :=
  aggregateFinish (aggregateFold reports)

/-! ### JSON model

analyzeChunk feeds the classifier response through JSON.parse.  JSON.parse is
an external runtime primitive; it is modelled here as a fuel-indexed
recursive-descent parser of the JSON grammar.  Numbers: the fraction and
exponent parts are consumed syntactically but the value is truncated to the
signed integer part — no claim depends on non-integral numeric values. -/

inductive JsonValue where
  | null
  | bool (b : Bool)
  | num (n : Int)
  | str (s : String)
  | arr (elements : List JsonValue)
  | obj (members : List (String × JsonValue))

def isJsonWs (c : Char) : Bool :=
  c == ' ' || c == '\t' || c == '\n' || c == '\r'

def skipWs (cs : List Char) : List Char := cs.dropWhile isJsonWs

def isDigitCh (c : Char) : Bool :=
  decide (48 ≤ c.toNat) && decide (c.toNat ≤ 57)

def digitVal (c : Char) : Nat := c.toNat - 48

def hexVal (c : Char) : Option Nat :=
  if isDigitCh c then some (c.toNat - 48)
  else if decide (97 ≤ c.toNat) && decide (c.toNat ≤ 102) then some (c.toNat - 87)
  else if decide (65 ≤ c.toNat) && decide (c.toNat ≤ 70) then some (c.toNat - 55)
  else none

def digitsVal (ds : List Char) : Nat :=
  ds.foldl (fun acc c => acc * 10 + digitVal c) 0

/-- Body of a JSON string after its opening quote: characters and escape
sequences up to the closing quote; returns the decoded characters and the
remaining input. -/
def parseStrChars : Nat → List Char → Option (List Char × List Char)
  | 0, _ => none
  | fuel+1, cs =>
    match cs with
    | [] => none
    | '\x22' :: rest => some ([], rest)
    | '\x5c' :: esc :: rest =>
      let dec : Option (Char × List Char) :=
        if esc = '\x22' then some ('\x22', rest)
        else if esc = '\x5c' then some ('\x5c', rest)
        else if esc = '/' then some ('/', rest)
        else if esc = 'b' then some ('\x08', rest)
        else if esc = 'f' then some ('\x0c', rest)
        else if esc = 'n' then some ('\n', rest)
        else if esc = 'r' then some ('\r', rest)
        else if esc = 't' then some ('\t', rest)
        else if esc = 'u' then
          match rest with
          | a :: b :: c :: d :: rest2 =>
            match hexVal a, hexVal b, hexVal c, hexVal d with
            | some ha, some hb, some hc, some hd =>
              some (Char.ofNat (((ha * 16 + hb) * 16 + hc) * 16 + hd), rest2)
            | _, _, _, _ => none
          | _ => none
        else none
      match dec with
      | some (c, rest2) =>
        match parseStrChars fuel rest2 with
        | some (tail, rest3) => some (c :: tail, rest3)
        | none => none
      | none => none
    | c :: rest =>
      match parseStrChars fuel rest with
      | some (tail, rest2) => some (c :: tail, rest2)
      | none => none

/-- A JSON number: optional minus, an integer part without leading zeros,
then optional fraction and exponent (consumed, value truncated). -/
def parseNumber (cs : List Char) : Option (JsonValue × List Char) :=
  let signSplit : Bool × List Char :=
    match cs with
    | '-' :: r => (true, r)
    | _ => (false, cs)
  let neg := signSplit.1
  let cs1 := signSplit.2
  let intPart : Option (Nat × List Char) :=
    match cs1 with
    | '0' :: r => some (0, r)
    | c :: _ =>
      if isDigitCh c then
        some (digitsVal (cs1.takeWhile isDigitCh), cs1.dropWhile isDigitCh)
      else none
    | [] => none
  match intPart with
  | none => none
  | some (n, cs2) =>
    let afterFrac : Option (List Char) :=
      match cs2 with
      | '.' :: r =>
        if (r.takeWhile isDigitCh).isEmpty then none
        else some (r.dropWhile isDigitCh)
      | _ => some cs2
    match afterFrac with
    | none => none
    | some cs4 =>
      let afterExp : Option (List Char) :=
        match cs4 with
        | e :: r =>
          if e == 'e' || e == 'E' then
            let r2 : List Char :=
              match r with
              | '+' :: r' => r'
              | '-' :: r' => r'
              | _ => r
            if (r2.takeWhile isDigitCh).isEmpty then none
            else some (r2.dropWhile isDigitCh)
          else some cs4
        | [] => some cs4
      match afterExp with
      | none => none
      | some cs6 => some (.num (if neg then -(n : Int) else (n : Int)), cs6)

mutual

/-- One JSON value from the front of the input (fuel-indexed). -/
def parseValue : Nat → List Char → Option (JsonValue × List Char)
  | 0, _ => none
  | fuel+1, cs =>
    match skipWs cs with
    | [] => none
    | c :: rest =>
      if c = '\x7b' then
        match skipWs rest with
        | '\x7d' :: rest2 => some (.obj [], rest2)
        | _ =>
          match parseMembers fuel rest with
          | some (ms, rest2) =>
            match skipWs rest2 with
            | '\x7d' :: rest3 => some (.obj ms, rest3)
            | _ => none
          | none => none
      else if c = '[' then
        match skipWs rest with
        | ']' :: rest2 => some (.arr [], rest2)
        | _ =>
          match parseElements fuel rest with
          | some (es, rest2) =>
            match skipWs rest2 with
            | ']' :: rest3 => some (.arr es, rest3)
            | _ => none
          | none => none
      else if c = '\x22' then
        match parseStrChars fuel rest with
        | some (sc, rest2) => some (.str (String.mk sc), rest2)
        | none => none
      else if c = 't' then
        match rest with
        | 'r' :: 'u' :: 'e' :: rest2 => some (.bool true, rest2)
        | _ => none
      else if c = 'f' then
        match rest with
        | 'a' :: 'l' :: 's' :: 'e' :: rest2 => some (.bool false, rest2)
        | _ => none
      else if c = 'n' then
        match rest with
        | 'u' :: 'l' :: 'l' :: rest2 => some (.null, rest2)
        | _ => none
      else parseNumber (c :: rest)

/-- The comma-separated members of a JSON object. -/
def parseMembers : Nat → List Char → Option (List (String × JsonValue) × List Char)
  | 0, _ => none
  | fuel+1, cs =>
    match skipWs cs with
    | '\x22' :: rest =>
      match parseStrChars fuel rest with
      | some (key, rest2) =>
        match skipWs rest2 with
        | ':' :: rest3 =>
          match parseValue fuel rest3 with
          | some (v, rest4) =>
            match skipWs rest4 with
            | ',' :: rest5 =>
              match parseMembers fuel rest5 with
              | some (ms, rest6) => some ((String.mk key, v) :: ms, rest6)
              | none => none
            | _ => some ([(String.mk key, v)], rest4)
          | none => none
        | _ => none
      | none => none
    | _ => none

/-- The comma-separated elements of a JSON array. -/
def parseElements : Nat → List Char → Option (List JsonValue × List Char)
  | 0, _ => none
  | fuel+1, cs =>
    match parseValue fuel cs with
    | some (v, rest) =>
      match skipWs rest with
      | ',' :: rest2 =>
        match parseElements fuel rest2 with
        | some (es, rest3) => some (v :: es, rest3)
        | none => none
      | _ => some ([v], rest)
    | none => none

end

/-- Model of JSON.parse: parse one value, allow trailing whitespace, reject
anything else left over.  The fuel exceeds the input length, and every unit
of fuel spent consumes input, so the fuel never runs out. -/
def jsonParse (s : String) : Option JsonValue :=
  match parseValue (s.length + 16) s.toList with
  | some (v, rest) => if (skipWs rest).isEmpty then some v else none
  | none => none

/-! ### Decoding a parsed value into the DailyReport shape

The source casts the JSON.parse result to DailyReport with no validation.
The typed model decodes it at this boundary, filling absent or ill-typed
fields with the neutral defaults; no claim depends on a successfully parsed
but shape-mismatched response. -/

/-- Object field access; JSON.parse keeps the last duplicate key. -/
def objGet (ms : List (String × JsonValue)) (k : String) : Option JsonValue :=
  lookupA ms.reverse k

def jsInt (v : Option JsonValue) : Int :=
  match v with
  | some (.num n) => n
  | _ => 0

def jsStr (v : Option JsonValue) (d : String) : String :=
  match v with
  | some (.str s) => s
  | _ => d

def decodeSite (v : JsonValue) : SiteVisit :=
  match v with
  | .obj ms =>
    { url := jsStr (objGet ms "url") ""
    , category := jsStr (objGet ms "category") "General"
    , visits := jsInt (objGet ms "visits") }
  | _ => { url := "", category := "General", visits := 0 }

def decodeCatFreq (v : Option JsonValue) : CategoryFreq :=
  match v with
  | some (.obj ms) =>
    { category := jsStr (objGet ms "category") "General"
    , frequency := jsInt (objGet ms "frequency") }
  | _ => { category := "General", frequency := 0 }

def decodeDailyReport (v : JsonValue) : DailyReport :=
  match v with
  | .obj ms =>
    { totalVisits := jsInt (objGet ms "totalVisits")
    , categories :=
        match objGet ms "categories" with
        | some (.obj cs) => cs.map (fun e => (e.1, jsInt (some e.2)))
        | _ => []
    , mostVisitedSites :=
        match objGet ms "mostVisitedSites" with
        | some (.arr xs) => xs.map decodeSite
        | _ => []
    , mostFrequentCategory := decodeCatFreq (objGet ms "mostFrequentCategory")
    , mostFrequentSite :=
        match objGet ms "mostFrequentSite" with
        | some sv => decodeSite sv
        | none => { url := "", category := "General", visits := 0 } }
  | _ => neutralReport

/-! ### analyzeChunk (browser-history.service.ts lines 43-99) -/

/-- Position of the last occurrence of a character. -/
def lastIdxOf (c : Char) (cs : List Char) : Option Nat :=
  match cs.reverse.findIdx? (fun x => x == c) with
  | some r => some (cs.length - 1 - r)
  | none => none

/-- Model of responseContent.match against the greedy regex: an open brace,
any characters, a close brace.  Its leftmost-longest match runs from the
first open brace lying before the last close brace — when any match exists
that is the first open brace of the whole string — through the last close
brace. -/
def extractJsonCandidate (s : String) : Option String :=
  let cs := s.toList
  match cs.findIdx? (fun x => x == '\x7b'), lastIdxOf '\x7d' cs with
  | some p, some q =>
    if p < q then some (String.mk ((cs.drop p).take (q - p + 1))) else none
  | _, _ => none

/-- Outcome of the external chat completion call for one chunk: either the
promise rejected, or it resolved with the given response content (the empty
string stands for a missing message, as in the source's fallback). -/
inductive ClassifierOutcome where
  | failure
  | response (content : String)

/-- analyzeChunk: on call failure, missing JSON candidate, or a candidate
JSON.parse rejects, the catch block returns the neutral report; otherwise
the parsed candidate is returned as the chunk report. -/
def analyzeChunk (outcome : ClassifierOutcome) : DailyReport :=
  match outcome with
  | .failure => neutralReport
  | .response content =>
    match extractJsonCandidate content with
    | none => neutralReport
    | some cand =>
      match jsonParse cand with
      | none => neutralReport
      | some v => decodeDailyReport v

/-- The failure condition of the absorption claim, as a decidable check: the
chat call rejected, or its response contains no parseable JSON (no regex
candidate, or the candidate fails JSON parsing). -/
def classifierFailed (outcome : ClassifierOutcome) : Bool :=
  match outcome with
  | .failure => true
  | .response content =>
    match extractJsonCandidate content with
    | none => true
    | some cand => (jsonParse cand).isNone

/-- Scan for the matching close brace at the given depth, returning the
consumed characters including the final close brace, and the rest. -/
def scanBalanced : List Char → Nat → Option (List Char × List Char)
  | [], _ => none
  | c :: rest, depth =>
    if c = '\x7b' then
      match scanBalanced rest (depth + 1) with
      | some (xs, r) => some (c :: xs, r)
      | none => none
    else if c = '\x7d' then
      if depth ≤ 1 then some ([c], rest)
      else
        match scanBalanced rest (depth - 1) with
        | some (xs, r) => some (c :: xs, r)
        | none => none
    else
      match scanBalanced rest depth with
      | some (xs, r) => some (c :: xs, r)
      | none => none

def firstBalancedAux : List Char → Option (List Char)
  | [] => none
  | c :: rest =>
    if c = '\x7b' then
      match scanBalanced rest 1 with
      | some (xs, _) => some (c :: xs)
      | none => firstBalancedAux rest
    else firstBalancedAux rest

/-- Modelled from the spec: "tolerate extra prose around the JSON payload by
extracting the first balanced brace-delimited substring before parsing" —
the earliest open brace from which the braces balance yields the candidate
(the one piece of the claim that is not what the source regex computes). -/
def firstBalancedCandidate (s : String) : Option String :=
  match firstBalancedAux s.toList with
  | some xs => some (String.mk xs)
  | none => none

/-- Modelled from the spec: the response-parsing pipeline as the claim
states it, with the first balanced brace substring as the candidate; to be
compared against analyzeChunk. -/
def analyzeChunkSpec (outcome : ClassifierOutcome) : DailyReport :=
  match outcome with
  | .failure => neutralReport
  | .response content =>
    match firstBalancedCandidate content with
    | none => neutralReport
    | some cand =>
      match jsonParse cand with
      | none => neutralReport
      | some v => decodeDailyReport v

/-! ### Job state and processNextChunk (browser-history.service.ts 101-171) -/

structure HistoryItem where
  url : String
  title : Option String
deriving DecidableEq, Repr

structure Account where
  email : String
  name : String
deriving DecidableEq, Repr

/-- The record stored under the browser-history key: storeHistoryWithAccount
always writes both fields, and getHistory rejects records missing either, so
a present record carries both. -/
structure HistoryRecord where
  account : Account
  history : List HistoryItem
deriving DecidableEq, Repr

/-- The per-job slice of the Redis store for one fixed (date, email) pair:
the browser-history record, the chunk-progress value (stored as a decimal
string; toString and parseInt round-trip, so it is kept as a number), the
chunk-report entries keyed by index, and the daily-report value. -/
structure JobState where
  history : Option HistoryRecord
  chunkProgress : Option Nat
  chunkReports : List (Nat × DailyReport)
  dailyReport : Option DailyReport
deriving DecidableEq, Repr

/-- The value of Math.ceil applied to length / chunkSize as a JS number: a
finite integer for nonzero chunkSize, Infinity for a positive length divided
by zero, NaN for zero divided by zero. -/
inductive JsCeil where
  | fin (n : Int)
  | posInf
  | nan
deriving DecidableEq, Repr

/-- ceil(len / k) for positive k. -/
def totalChunksNat (len : Nat) (k : Int) : Nat :=
  (len + k.toNat - 1) / k.toNat

def jsCeilDiv (len : Nat) (k : Int) : JsCeil :=
  if 0 < k then .fin (totalChunksNat len k)
  else if k < 0 then .fin (-(Int.ofNat (len / (-k).toNat)))
  else if len = 0 then .nan else .posInf

/-- The test currentChunkIndex >= totalChunks under JS semantics: any
comparison with NaN is false, and no finite index reaches Infinity. -/
def jsGeCeil (i : Nat) (t : JsCeil) : Bool :=
  match t with
  | .fin n => decide ((i : Int) ≥ n)
  | .posInf => false
  | .nan => false

/-- getChunkProgress: the stored value, or 0 when absent. -/
def getChunkProgress (s : JobState) : Nat := s.chunkProgress.getD 0

/-- history.slice with start = index * chunkSize and end = start + chunkSize.
This point is only reached with nonnegative chunkSize (a negative size makes
the terminal test true), where the slice is drop start, take chunkSize. -/
def currentChunk (hist : HistoryRecord) (k : Int) (i : Nat) : List HistoryItem :=
  (hist.history.drop (i * k.toNat)).take k.toNat

/-- One redis.set performed by processNextChunk. -/
inductive WriteOp where
  | chunkReport (idx : Nat) (r : DailyReport)
  | progress (n : Nat)
deriving DecidableEq, Repr

def applyOp (s : JobState) : WriteOp → JobState
  | .chunkReport i r =>
    { s with chunkReports := updateAssoc s.chunkReports i (fun _ => r) }
  | .progress n => { s with chunkProgress := some n }

def applyOps (s : JobState) (ops : List WriteOp) : JobState :=
  ops.foldl applyOp s

/-- processNextChunk (lines 101-130) split into its result and the ordered
list of redis.set writes it performs.  In the source every read (history,
progress) precedes every write, so the call is faithfully a read-only phase
followed by this write list: the chunk report first, the progress value
second.  The respond argument is the external classifier: the outcome of
the chat completion call on a given chunk. -/
def processNextChunkOps (respond : List HistoryItem → ClassifierOutcome)
    (chunkSize : Int) (s : JobState) : Except String (Bool × List WriteOp) :=
  match s.history with
  | none => .error "No history found for the given date and email"
  | some hist =>
    let i := getChunkProgress s
    if jsGeCeil i (jsCeilDiv hist.history.length chunkSize) then
      .ok (true, [])
    else
      let rep := analyzeChunk (respond (currentChunk hist chunkSize i))
      .ok (false, [.chunkReport i rep, .progress (i + 1)])

/-- processNextChunk: result together with the state after its writes. -/
def processNextChunk (respond : List HistoryItem → ClassifierOutcome)
    (chunkSize : Int) (s : JobState) : Except String (Bool × JobState) :=
  match processNextChunkOps respond chunkSize s with
  | .error e => .error e
  | .ok (c, ops) => .ok (c, applyOps s ops)

/-- The state transformer of one advance call (unchanged on the error
path). -/
def advanceState (respond : List HistoryItem → ClassifierOutcome)
    (chunkSize : Int) (s : JobState) : JobState :=
  match processNextChunk respond chunkSize s with
  | .ok (_, s') => s'
  | .error _ => s

/-! ### finalizeDailyReport (browser-history.service.ts lines 173-207) -/

/-- The while-true loop of finalizeDailyReport: read chunk-report entries at
indices 0, 1, 2, ... and stop at the first missing index.  The store is a
finite list and the collected prefix has pairwise distinct indices all
present in it, so fuel of store length + 1 never runs out. -/
def collectChunkReports (store : List (Nat × DailyReport)) :
    Nat → Nat → List DailyReport
  | 0, _ => []
  | fuel+1, i =>
    match lookupA store i with
    | none => []
    | some r => r :: collectChunkReports store fuel (i + 1)

/-- finalizeDailyReport: collect the dense prefix of chunk reports; when
none exist, return the neutral report and leave the store untouched (the
daily-report key is not written); otherwise aggregate, write the daily
report and return it. -/
def finalizeDailyReport (s : JobState) : DailyReport × JobState :=
  let reports := collectChunkReports s.chunkReports (s.chunkReports.length + 1) 0
  if reports.isEmpty then
    (neutralReport, s)
  else
    let finalReport := aggregateReports reports
    (finalReport, { s with dailyReport := some finalReport })

/-! ### Derived views used by the claim statements -/

/-- All mostVisitedSites entries of a report sequence, in order. -/
def allSites (reports : List DailyReport) : List SiteVisit :=
  (reports.map DailyReport.mostVisitedSites).flatten

/-- The site-group map built by the aggregation fold. -/
def siteMapOf (reports : List DailyReport) : List (String × SiteAgg) :=
  (aggregateFold reports).siteMap

/-- The site groups in first-seen insertion order, in output shape. -/
def siteGroups (reports : List DailyReport) : List SiteVisit :=
  (siteMapOf reports).map siteEntryToVisit

/-- Aggregated visits recorded for a grouping key (0 when absent). -/
def groupVisits (m : List (String × SiteAgg)) (k : String) : Int :=
  ((lookupA m k).map SiteAgg.visits).getD 0

/-- Sum of the visits of the sites that group under the given key. -/
def visitsFor (k : String) (sites : List SiteVisit) : Int :=
  ((sites.filter (fun s => decide (extractMainUrl s.url = k))).map
    SiteVisit.visits).sum

/-- Keys in first-occurrence order: fold that appends unseen keys. -/
def keysSeen (acc : List String) : List String → List String
  | [] => acc
  | k :: ks => keysSeen (if k ∈ acc then acc else acc ++ [k]) ks

/-- A small concrete job state used by counterexamples and witnesses: one
stored history item, no progress, no reports. -/
def demoState : JobState :=
  { history := some
      { account := { email := "user@example.com", name := "User" }
      , history := [{ url := "https://a.com/x", title := none }] }
  , chunkProgress := none
  , chunkReports := []
  , dailyReport := none }

/-! ### Declarative index predicates used by the claim statements -/

/-- p is the position of the first occurrence of the character. -/
def isFirstIdxOf (c : Char) (cs : List Char) (p : Nat) : Prop :=
  cs[p]? = some c ∧ ∀ m, m < p → cs[m]? ≠ some c

/-- q is the position of the last occurrence of the character. -/
def isLastIdxOf (c : Char) (cs : List Char) (q : Nat) : Prop :=
  cs[q]? = some c ∧ ∀ m, m < cs.length → q < m → cs[m]? ≠ some c

instance (c : Char) (cs : List Char) (p : Nat) : Decidable (isFirstIdxOf c cs p) := by
  unfold isFirstIdxOf
  infer_instance

instance (c : Char) (cs : List Char) (q : Nat) : Decidable (isLastIdxOf c cs q) := by
  unfold isLastIdxOf
  infer_instance

/-! ## Helper lemmas: insertion-ordered association maps -/

theorem lookupA_updateAssoc_self {κ β : Type} [DecidableEq κ]
    (l : List (κ × β)) (k : κ) (f : Option β → β) :
    lookupA (updateAssoc l k f) k = some (f (lookupA l k)) := by
  induction l with
  | nil => simp [updateAssoc, lookupA]
  | cons e rest ih =>
    obtain ⟨k', v⟩ := e
    by_cases h : k' = k
    · subst h
      simp [updateAssoc, lookupA]
    · simp [updateAssoc, lookupA, h, ih]

theorem lookupA_updateAssoc_ne {κ β : Type} [DecidableEq κ]
    (l : List (κ × β)) (k₀ k : κ) (f : Option β → β) (hne : k₀ ≠ k) :
    lookupA (updateAssoc l k₀ f) k = lookupA l k := by
  induction l with
  | nil => simp [updateAssoc, lookupA, hne]
  | cons e rest ih =>
    obtain ⟨k', v⟩ := e
    by_cases h : k' = k₀
    · subst h
      have : k' ≠ k := hne
      simp [updateAssoc, lookupA, this]
    · by_cases hk : k' = k
      · simp [updateAssoc, lookupA, h, hk, Ne.symm hne]
      · simp [updateAssoc, lookupA, h, hk, ih]

theorem updateAssoc_keys {κ β : Type} [DecidableEq κ]
    (l : List (κ × β)) (k : κ) (f : Option β → β) :
    (updateAssoc l k f).map Prod.fst =
      if k ∈ l.map Prod.fst then l.map Prod.fst else l.map Prod.fst ++ [k] := by
  induction l with
  | nil => simp [updateAssoc]
  | cons e rest ih =>
    obtain ⟨k', v⟩ := e
    by_cases h : k' = k
    · subst h
      simp [updateAssoc]
    · have hne : ¬(k = k') := fun hkk => h hkk.symm
      by_cases hk : k ∈ rest.map Prod.fst
      · simp [updateAssoc, h, ih, hk, hne]
      · simp [updateAssoc, h, ih, hk, hne]

/-! ## Helper lemmas: the stable descending sort -/

theorem insertDescBy_perm {α : Type} (key : α → Int) (x : α) (l : List α) :
    (insertDescBy key x l).Perm (x :: l) := by
  induction l with
  | nil => exact List.Perm.refl _
  | cons y ys ih =>
    by_cases h : key x ≤ key y
    · simpa [insertDescBy, h] using (ih.cons y).trans (List.Perm.swap x y ys)
    · simp [insertDescBy, h]

theorem sortFoldDesc_perm {α : Type} (key : α → Int) :
    ∀ (l acc : List α),
      (l.foldl (fun a x => insertDescBy key x a) acc).Perm (acc ++ l) := by
  intro l
  induction l with
  | nil => intro acc; simp
  | cons x xs ih =>
    intro acc
    have h2 : (insertDescBy key x acc ++ xs).Perm (acc ++ x :: xs) := by
      refine ((insertDescBy_perm key x acc).append_right xs).trans ?_
      exact List.perm_middle.symm
    simpa [List.foldl_cons] using (ih (insertDescBy key x acc)).trans h2

theorem sortDescBy_perm {α : Type} (key : α → Int) (l : List α) :
    (sortDescBy key l).Perm l := by
  simpa [sortDescBy] using sortFoldDesc_perm key l []

theorem insertDescBy_pairwise {α : Type} (key : α → Int) (x : α) (l : List α)
    (hl : l.Pairwise (fun a b => key b ≤ key a)) :
    (insertDescBy key x l).Pairwise (fun a b => key b ≤ key a) := by
  induction l with
  | nil => simp [insertDescBy]
  | cons y ys ih =>
    rw [List.pairwise_cons] at hl
    obtain ⟨hy, hys⟩ := hl
    by_cases h : key x ≤ key y
    · simp only [insertDescBy, if_pos h]
      rw [List.pairwise_cons]
      refine ⟨?_, ih hys⟩
      intro z hz
      have hz' : z ∈ x :: ys := (insertDescBy_perm key x ys).mem_iff.mp hz
      rcases List.mem_cons.mp hz' with rfl | hz''
      · exact h
      · exact hy z hz''
    · simp only [insertDescBy, if_neg h]
      rw [List.pairwise_cons]
      refine ⟨?_, List.pairwise_cons.mpr ⟨hy, hys⟩⟩
      intro z hz
      rcases List.mem_cons.mp hz with rfl | hz'
      · exact le_of_not_le h
      · exact le_trans (hy z hz') (le_of_not_le h)

theorem sortFoldDesc_pairwise {α : Type} (key : α → Int) :
    ∀ (l acc : List α), acc.Pairwise (fun a b => key b ≤ key a) →
      (l.foldl (fun a x => insertDescBy key x a) acc).Pairwise
        (fun a b => key b ≤ key a) := by
  intro l
  induction l with
  | nil => intro acc hacc; simpa using hacc
  | cons x xs ih =>
    intro acc hacc
    simpa [List.foldl_cons] using ih _ (insertDescBy_pairwise key x acc hacc)

theorem sortDescBy_pairwise {α : Type} (key : α → Int) (l : List α) :
    (sortDescBy key l).Pairwise (fun a b => key b ≤ key a) := by
  simpa [sortDescBy] using sortFoldDesc_pairwise key l [] (by simp)

theorem filter_insertDescBy {α : Type} (key : α → Int) (x : α) (v : Int)
    (l : List α) (hl : l.Pairwise (fun a b => key b ≤ key a)) :
    (insertDescBy key x l).filter (fun a => decide (key a = v)) =
      if key x = v then l.filter (fun a => decide (key a = v)) ++ [x]
      else l.filter (fun a => decide (key a = v)) := by
  induction l with
  | nil =>
    by_cases hx : key x = v <;> simp [insertDescBy, hx]
  | cons y ys ih =>
    rw [List.pairwise_cons] at hl
    obtain ⟨hy, hys⟩ := hl
    by_cases h : key x ≤ key y
    · simp only [insertDescBy, if_pos h]
      by_cases hyv : key y = v <;> by_cases hxv : key x = v <;>
        simp [List.filter_cons, hyv, hxv, ih hys]
    · simp only [insertDescBy, if_neg h]
      have hlt : key y < key x := lt_of_not_le h
      by_cases hxv : key x = v
      · have hnil : (y :: ys).filter (fun a => decide (key a = v)) = [] := by
          rw [List.filter_eq_nil_iff]
          intro a ha
          have hle : key a ≤ key y := by
            rcases List.mem_cons.mp ha with rfl | ha'
            · exact le_refl _
            · exact hy a ha'
          have : key a ≠ v := by omega
          simpa using this
        simp [List.filter_cons, hxv, hnil]
      · simp [List.filter_cons, hxv]

theorem filter_sortFoldDesc {α : Type} (key : α → Int) (v : Int) :
    ∀ (l acc : List α), acc.Pairwise (fun a b => key b ≤ key a) →
      (l.foldl (fun a x => insertDescBy key x a) acc).filter
          (fun a => decide (key a = v)) =
        acc.filter (fun a => decide (key a = v)) ++
          l.filter (fun a => decide (key a = v)) := by
  intro l
  induction l with
  | nil => intro acc hacc; simp
  | cons x xs ih =>
    intro acc hacc
    rw [List.foldl_cons]
    rw [ih _ (insertDescBy_pairwise key x acc hacc)]
    rw [filter_insertDescBy key x v acc hacc]
    by_cases hxv : key x = v <;> simp [List.filter_cons, hxv]

theorem filter_sortDescBy {α : Type} (key : α → Int) (v : Int) (l : List α) :
    (sortDescBy key l).filter (fun a => decide (key a = v)) =
      l.filter (fun a => decide (key a = v)) := by
  simpa [sortDescBy] using filter_sortFoldDesc key v l [] (by simp)

/-! ## Helper lemmas: the aggregation fold -/

theorem foldl_reportStep_totalVisits :
    ∀ (rs : List DailyReport) (st : AggState),
      (rs.foldl reportStep st).totalVisits =
        st.totalVisits + (rs.map DailyReport.totalVisits).sum := by
  intro rs
  induction rs with
  | nil => intro st; simp
  | cons r rest ih =>
    intro st
    simp [List.foldl_cons, ih, reportStep, add_assoc]

theorem foldl_reportStep_siteMap :
    ∀ (rs : List DailyReport) (st : AggState),
      (rs.foldl reportStep st).siteMap =
        ((rs.map DailyReport.mostVisitedSites).flatten).foldl siteStep st.siteMap := by
  intro rs
  induction rs with
  | nil => intro st; simp
  | cons r rest ih =>
    intro st
    simp [List.foldl_cons, ih, reportStep, List.foldl_append]

theorem groupVisits_foldl_siteStep (k : String) :
    ∀ (sites : List SiteVisit) (m : List (String × SiteAgg)),
      groupVisits (sites.foldl siteStep m) k = groupVisits m k + visitsFor k sites := by
  intro sites
  induction sites with
  | nil => intro m; simp [visitsFor]
  | cons s rest ih =>
    intro m
    rw [List.foldl_cons, ih]
    by_cases h : extractMainUrl s.url = k
    · have hmain : groupVisits (siteStep m s) k = groupVisits m k + s.visits := by
        unfold siteStep
        rw [h, groupVisits, lookupA_updateAssoc_self]
        cases hm : lookupA m k <;> simp [groupVisits, hm]
      rw [hmain]
      have hvf : visitsFor k (s :: rest) = s.visits + visitsFor k rest := by
        simp [visitsFor, List.filter_cons, h]
      rw [hvf]
      ring
    · have hmain : groupVisits (siteStep m s) k = groupVisits m k := by
        unfold siteStep
        rw [groupVisits, lookupA_updateAssoc_ne _ _ _ _ h, groupVisits]
      have hvf : visitsFor k (s :: rest) = visitsFor k rest := by
        simp [visitsFor, List.filter_cons, h]
      rw [hmain, hvf]

theorem isSome_foldl_siteStep (k : String) :
    ∀ (sites : List SiteVisit) (m : List (String × SiteAgg)),
      (lookupA (sites.foldl siteStep m) k).isSome =
        ((lookupA m k).isSome ||
          sites.any (fun s => decide (extractMainUrl s.url = k))) := by
  intro sites
  induction sites with
  | nil => intro m; simp
  | cons s rest ih =>
    intro m
    rw [List.foldl_cons, ih]
    by_cases h : extractMainUrl s.url = k
    · have hmain : (lookupA (siteStep m s) k).isSome = true := by
        unfold siteStep
        rw [h, lookupA_updateAssoc_self]
        rfl
      simp [hmain, List.any_cons, h]
    · have hmain : lookupA (siteStep m s) k = lookupA m k := by
        unfold siteStep
        exact lookupA_updateAssoc_ne _ _ _ _ h
      simp [hmain, List.any_cons, h]

theorem keys_foldl_siteStep :
    ∀ (sites : List SiteVisit) (m : List (String × SiteAgg)),
      (sites.foldl siteStep m).map Prod.fst =
        keysSeen (m.map Prod.fst) (sites.map (fun s => extractMainUrl s.url)) := by
  intro sites
  induction sites with
  | nil => intro m; simp [keysSeen]
  | cons s rest ih =>
    intro m
    rw [List.foldl_cons, ih]
    have hkeys : (siteStep m s).map Prod.fst =
        if extractMainUrl s.url ∈ m.map Prod.fst then m.map Prod.fst
        else m.map Prod.fst ++ [extractMainUrl s.url] := by
      unfold siteStep
      exact updateAssoc_keys _ _ _
    rw [List.map_cons, keysSeen, hkeys]

/-! ## The claims about aggregation -/

/-- C8: the total visit count aggregates additively over any split of the
report sequence into a prefix and a suffix. -/
theorem aggregate_totalVisits_additive (A B : List DailyReport) :
    (aggregateReports (A ++ B)).totalVisits =
      (aggregateReports A).totalVisits + (aggregateReports B).totalVisits := by
  have h : ∀ rs : List DailyReport,
      (aggregateReports rs).totalVisits = (rs.map DailyReport.totalVisits).sum := by
    intro rs
    show (aggregateFold rs).totalVisits = _
    rw [aggregateFold, foldl_reportStep_totalVisits]
    simp [initialAggState]
  simp [h]

/-- C10: aggregateReports reads only the totalVisits, categories and
mostVisitedSites fields of its inputs: two report sequences that agree
pointwise on those three fields aggregate to identical DailyReports. -/
theorem aggregate_depends_only_on_summed_fields (rs₁ rs₂ : List DailyReport)
    (h : List.Forall₂ (fun a b =>
        a.totalVisits = b.totalVisits ∧ a.categories = b.categories ∧
          a.mostVisitedSites = b.mostVisitedSites) rs₁ rs₂) :
    aggregateReports rs₁ = aggregateReports rs₂ := by
  have key : ∀ st : AggState, rs₁.foldl reportStep st = rs₂.foldl reportStep st := by
    induction h with
    | nil => intro st; rfl
    | @cons a b l₁ l₂ hab htail ih =>
      intro st
      obtain ⟨h1, h2, h3⟩ := hab
      have hstep : reportStep st a = reportStep st b := by
        simp [reportStep, h1, h2, h3]
      simp only [List.foldl_cons, hstep]
      exact ih _
  show aggregateFinish (aggregateFold rs₁) = aggregateFinish (aggregateFold rs₂)
  rw [aggregateFold, aggregateFold, key initialAggState]

/-- A closed instance for C10: two singleton report sequences that differ
only in the mostFrequentCategory and mostFrequentSite fields aggregate to
identical DailyReports. -/
theorem aggregate_depends_only_on_summed_fields_witness :
    aggregateReports
        [{ totalVisits := 4
         , categories := [("News", 4)]
         , mostVisitedSites := [{ url := "https://a.com/x", category := "News", visits := 4 }]
         , mostFrequentCategory := { category := "News", frequency := 4 }
         , mostFrequentSite := { url := "https://a.com/x", category := "News", visits := 4 } }] =
      aggregateReports
        [{ totalVisits := 4
         , categories := [("News", 4)]
         , mostVisitedSites := [{ url := "https://a.com/x", category := "News", visits := 4 }]
         , mostFrequentCategory := { category := "Sports", frequency := 9 }
         , mostFrequentSite := { url := "https://b.com/", category := "Sports", visits := 9 } }] :=
  aggregate_depends_only_on_summed_fields _ _
    (List.Forall₂.cons ⟨rfl, rfl, rfl⟩ List.Forall₂.nil)

/-- C4: aggregation groups mostVisitedSites entries by extractMainUrl of
their URL, which is scheme and host followed by a slash for every URL the
URL parser accepts and the original string unchanged for every URL it
rejects; a grouping key is present in the site-group map exactly when some
input site maps to it, and its recorded visits are the sum of the visits of
exactly those input sites. -/
theorem site_grouping_by_origin :
    (∀ s u, parseUrl s = some u →
        extractMainUrl s = u.scheme ++ "://" ++ u.host ++ "/") ∧
    (∀ s, parseUrl s = none → extractMainUrl s = s) ∧
    (∀ reports k, (lookupA (siteMapOf reports) k).isSome =
        (allSites reports).any (fun s => decide (extractMainUrl s.url = k))) ∧
    (∀ reports k, groupVisits (siteMapOf reports) k = visitsFor k (allSites reports)) := by
  refine ⟨?_, ?_, ?_, ?_⟩
  · intro s u hu
    simp [extractMainUrl, hu, urlOrigin]
  · intro s hs
    simp [extractMainUrl, hs]
  · intro reports k
    rw [siteMapOf, aggregateFold, foldl_reportStep_siteMap,
      isSome_foldl_siteStep, allSites]
    simp [initialAggState, lookupA]
  · intro reports k
    rw [siteMapOf, aggregateFold, foldl_reportStep_siteMap,
      groupVisits_foldl_siteStep, allSites]
    simp [initialAggState, groupVisits, lookupA]

/-- A closed instance for C4, the example of the spec: sites a.com/x with 3
visits and a.com/y with 2 visits, in separate reports, group under the
single key of scheme, host and slash with 5 visits. -/
theorem site_grouping_by_origin_witness :
    groupVisits
        (siteMapOf
          [{ totalVisits := 5
           , categories := [("News", 3), ("Sports", 2)]
           , mostVisitedSites := [{ url := "https://a.com/x", category := "News", visits := 3 }]
           , mostFrequentCategory := { category := "News", frequency := 3 }
           , mostFrequentSite := { url := "https://a.com/x", category := "News", visits := 3 } },
           { totalVisits := 2
           , categories := [("News", 2)]
           , mostVisitedSites := [{ url := "https://a.com/y", category := "News", visits := 2 }]
           , mostFrequentCategory := { category := "News", frequency := 2 }
           , mostFrequentSite := { url := "https://a.com/y", category := "News", visits := 2 } }])
        "https://a.com/" = 5 ∧
    extractMainUrl "https://a.com/x" = "https://a.com/" := by
  constructor
  · rw [(site_grouping_by_origin.2).2.2]
    decide
  · have h := site_grouping_by_origin.1 "https://a.com/x"
      { scheme := "https", host := "a.com", pathname := "/x" } (by decide)
    simpa using h

/-- C5: the aggregated mostVisitedSites is the first five entries of the
reordering of the site groups that is sorted by visits descending and is
stable: filtering any fixed visit count preserves the groups' first-seen
insertion order, and the group list itself lists grouping keys in
first-occurrence order of the input sites. -/
theorem top_sites_sorted_stable_top_five (reports : List DailyReport) :
    ∃ sorted : List SiteVisit,
      (aggregateReports reports).mostVisitedSites = sorted.take 5 ∧
      sorted.Perm (siteGroups reports) ∧
      sorted.Pairwise (fun a b => b.visits ≤ a.visits) ∧
      (∀ v : Int, sorted.filter (fun s => decide (s.visits = v)) =
        (siteGroups reports).filter (fun s => decide (s.visits = v))) ∧
      (siteGroups reports).map SiteVisit.url =
        keysSeen [] ((allSites reports).map (fun s => extractMainUrl s.url)) := by
  refine ⟨sortDescBy (fun s => s.visits) (siteGroups reports), rfl,
    sortDescBy_perm _ _, sortDescBy_pairwise _ _,
    fun v => filter_sortDescBy _ v _, ?_⟩
  have hmap : (siteGroups reports).map SiteVisit.url = (siteMapOf reports).map Prod.fst := by
    simp [siteGroups, siteEntryToVisit, Function.comp]
  rw [hmap, siteMapOf, aggregateFold, foldl_reportStep_siteMap,
    keys_foldl_siteStep]
  simp [initialAggState, allSites]

/-! ## Helper lemmas: the advance state machine -/

theorem analyzeChunk_eq_neutral_of_failed (o : ClassifierOutcome)
    (h : classifierFailed o = true) : analyzeChunk o = neutralReport := by
  cases o with
  | failure => rfl
  | response content =>
    simp only [classifierFailed] at h
    simp only [analyzeChunk]
    cases hc : extractJsonCandidate content with
    | none => rfl
    | some cand =>
      simp only [hc] at h ⊢
      cases hp : jsonParse cand with
      | none => rfl
      | some v => simp [hp] at h

theorem jsGeCeil_true_of_terminal (len : Nat) (k : Int) (i : Nat) (hk : 0 < k)
    (h : totalChunksNat len k ≤ i) :
    jsGeCeil i (jsCeilDiv len k) = true := by
  simp [jsCeilDiv, hk, jsGeCeil]
  exact_mod_cast h

theorem jsGeCeil_false_of_lt (len : Nat) (k : Int) (i : Nat) (hk : 0 < k)
    (h : i < totalChunksNat len k) :
    jsGeCeil i (jsCeilDiv len k) = false := by
  simp [jsCeilDiv, hk, jsGeCeil]
  exact_mod_cast h

/-! ## The claims about processNextChunk and finalizeDailyReport -/

/-- C1: in a terminal job state (the stored progress index has reached the
chunk count of the stored history) every processNextChunk call returns
completed without performing any write: its write list is empty and the
state is returned unchanged, and therefore so does every repeated call. -/
theorem advance_terminal_idempotent (respond : List HistoryItem → ClassifierOutcome)
    (chunkSize : Int) (s : JobState) (hist : HistoryRecord)
    (hs : s.history = some hist) (hk : 0 < chunkSize)
    (hterm : totalChunksNat hist.history.length chunkSize ≤ getChunkProgress s) :
    processNextChunkOps respond chunkSize s = .ok (true, []) ∧
    processNextChunk respond chunkSize s = .ok (true, s) ∧
    ∀ n : Nat, (advanceState respond chunkSize)^[n] s = s := by
  have hguard := jsGeCeil_true_of_terminal hist.history.length chunkSize
    (getChunkProgress s) hk hterm
  have h1 : processNextChunkOps respond chunkSize s = .ok (true, []) := by
    simp [processNextChunkOps, hs, hguard]
  have h2 : processNextChunk respond chunkSize s = .ok (true, s) := by
    simp [processNextChunk, h1, applyOps]
  refine ⟨h1, h2, ?_⟩
  intro n
  induction n with
  | zero => rfl
  | succ n ih =>
    rw [Function.iterate_succ_apply', ih]
    simp [advanceState, h2]

/-- A closed instance for C1: with one stored history item, chunk size 1 and
progress already 1, the call reports completion and leaves the state
untouched. -/
theorem advance_terminal_idempotent_witness :
    processNextChunk (fun _ => ClassifierOutcome.failure) 1
        { demoState with chunkProgress := some 1 } =
      .ok (true, { demoState with chunkProgress := some 1 }) :=
  (advance_terminal_idempotent (fun _ => ClassifierOutcome.failure) 1
    { demoState with chunkProgress := some 1 }
    { account := { email := "user@example.com", name := "User" }
    , history := [{ url := "https://a.com/x", title := none }] }
    rfl (by decide) (by decide)).2.1

/-- C2: in every non-terminal call the write list is exactly the chunk
report at the current index followed by the progress update to the next
index — the report write strictly precedes the progress write.  Applying
only the first write (the call stopping before the progress write) leaves
the progress value unchanged, and a next call from that intermediate state
performs exactly the same writes again: the same index is re-attempted and
never skipped. -/
theorem report_write_precedes_progress_advance
    (respond : List HistoryItem → ClassifierOutcome)
    (chunkSize : Int) (s : JobState) (hist : HistoryRecord)
    (hs : s.history = some hist) (hk : 0 < chunkSize)
    (hlt : getChunkProgress s < totalChunksNat hist.history.length chunkSize) :
    processNextChunkOps respond chunkSize s =
      .ok (false,
        [WriteOp.chunkReport (getChunkProgress s)
            (analyzeChunk (respond (currentChunk hist chunkSize (getChunkProgress s)))),
         WriteOp.progress (getChunkProgress s + 1)]) ∧
    getChunkProgress
        (applyOp s (WriteOp.chunkReport (getChunkProgress s)
          (analyzeChunk (respond (currentChunk hist chunkSize (getChunkProgress s)))))) =
      getChunkProgress s ∧
    processNextChunkOps respond chunkSize
        (applyOp s (WriteOp.chunkReport (getChunkProgress s)
          (analyzeChunk (respond (currentChunk hist chunkSize (getChunkProgress s)))))) =
      processNextChunkOps respond chunkSize s := by
  have hguard := jsGeCeil_false_of_lt hist.history.length chunkSize
    (getChunkProgress s) hk hlt
  refine ⟨?_, rfl, rfl⟩
  simp [processNextChunkOps, hs, hguard]

/-- A closed instance for C2: with one stored history item and chunk size 1
at progress 0, the write list is the report at index 0 followed by progress
1. -/
theorem report_write_precedes_progress_advance_witness :
    processNextChunkOps (fun _ => ClassifierOutcome.failure) 1 demoState =
      .ok (false, [WriteOp.chunkReport 0 neutralReport, WriteOp.progress 1]) := by
  have h := (report_write_precedes_progress_advance
    (fun _ => ClassifierOutcome.failure) 1 demoState
    { account := { email := "user@example.com", name := "User" }
    , history := [{ url := "https://a.com/x", title := none }] }
    rfl (by decide) (by decide)).1
  exact h.trans rfl

/-- C3: when the classifier call fails, or its response yields no parseable
JSON, analyzeChunk returns exactly the neutral report, and a non-terminal
processNextChunk call still stores that neutral report at the current index,
advances the progress, and returns not-completed. -/
theorem classifier_failure_absorbed
    (respond : List HistoryItem → ClassifierOutcome)
    (chunkSize : Int) (s : JobState) (hist : HistoryRecord)
    (hs : s.history = some hist) (hk : 0 < chunkSize)
    (hlt : getChunkProgress s < totalChunksNat hist.history.length chunkSize)
    (hfail : classifierFailed
      (respond (currentChunk hist chunkSize (getChunkProgress s))) = true) :
    analyzeChunk (respond (currentChunk hist chunkSize (getChunkProgress s))) =
      neutralReport ∧
    processNextChunk respond chunkSize s =
      .ok (false,
        { s with
          chunkReports :=
            updateAssoc s.chunkReports (getChunkProgress s) (fun _ => neutralReport),
          chunkProgress := some (getChunkProgress s + 1) }) ∧
    lookupA
        (updateAssoc s.chunkReports (getChunkProgress s) (fun _ => neutralReport))
        (getChunkProgress s) = some neutralReport := by
  have hneut := analyzeChunk_eq_neutral_of_failed _ hfail
  have hguard := jsGeCeil_false_of_lt hist.history.length chunkSize
    (getChunkProgress s) hk hlt
  refine ⟨hneut, ?_, ?_⟩
  · simp [processNextChunk, processNextChunkOps, hs, hguard, hneut,
      applyOps, applyOp]
  · rw [lookupA_updateAssoc_self]

/-- A closed instance for C3: a response with no braces at all yields the
neutral report, and the call stores it at index 0 and advances to 1. -/
theorem classifier_failure_absorbed_witness :
    processNextChunk (fun _ => ClassifierOutcome.response "no braces here") 1
        demoState =
      .ok (false, { demoState with
                    chunkReports := [(0, neutralReport)],
                    chunkProgress := some 1 }) := by
  have h := (classifier_failure_absorbed
    (fun _ => ClassifierOutcome.response "no braces here") 1 demoState
    { account := { email := "user@example.com", name := "User" }
    , history := [{ url := "https://a.com/x", title := none }] }
    rfl (by decide) (by decide) (by decide)).2.1
  exact h.trans rfl

/-- Counterexample for C6: a chunk size of 0 is not rejected — the call
proceeds to chunk (an empty slice), stores its report at the current index
and advances; a negative chunk size is not rejected either — the call
returns completed immediately.  No InvalidArgument failure is produced in
either case. -/
theorem chunk_size_zero_not_rejected :
    processNextChunk (fun _ => ClassifierOutcome.failure) 0 demoState =
      .ok (false, { demoState with
                    chunkReports := [(0, neutralReport)],
                    chunkProgress := some 1 }) ∧
    processNextChunk (fun _ => ClassifierOutcome.failure) (-3) demoState =
      .ok (true, demoState) := by
  constructor <;> rfl

/-- C6 amended: processNextChunk performs no validation of the chunk size.
A negative chunk size makes the computed chunk total nonpositive, so the
call returns completed true with no writes; a zero chunk size makes the
chunk total Infinity (or NaN on an empty history), whose comparison is
false, so the call classifies the empty slice, stores its report and
advances the progress.  No error is raised in either case. -/
theorem chunk_size_unvalidated (respond : List HistoryItem → ClassifierOutcome)
    (s : JobState) (hist : HistoryRecord)
    (hs : s.history = some hist) (chunkSize : Int) :
    (chunkSize < 0 → processNextChunk respond chunkSize s = .ok (true, s)) ∧
    (chunkSize = 0 → processNextChunk respond chunkSize s =
      .ok (false, applyOps s
        [WriteOp.chunkReport (getChunkProgress s) (analyzeChunk (respond [])),
         WriteOp.progress (getChunkProgress s + 1)])) := by
  constructor
  · intro hneg
    have h0 : ¬(0 < chunkSize) := by omega
    have hguard : jsGeCeil (getChunkProgress s)
        (jsCeilDiv hist.history.length chunkSize) = true := by
      simp only [jsCeilDiv, if_neg h0, if_pos hneg, jsGeCeil, ge_iff_le,
        decide_eq_true_eq]
      have hA : (0 : Int) ≤ Int.ofNat (hist.history.length / (-chunkSize).toNat) :=
        Int.ofNat_nonneg _
      have hB : (0 : Int) ≤ (getChunkProgress s : Int) := Int.ofNat_nonneg _
      omega
    simp [processNextChunk, processNextChunkOps, hs, hguard, applyOps]
  · intro h0
    subst h0
    have hguard : jsGeCeil (getChunkProgress s)
        (jsCeilDiv hist.history.length 0) = false := by
      by_cases hl : hist.history.length = 0 <;> simp [jsCeilDiv, hl, jsGeCeil]
    have hchunk : currentChunk hist 0 (getChunkProgress s) = [] := by
      simp [currentChunk]
    simp [processNextChunk, processNextChunkOps, hs, hguard, hchunk]

/-- A closed instance for the amended C6: a negative chunk size silently
reports completion instead of failing. -/
theorem chunk_size_unvalidated_witness :
    processNextChunk (fun _ => ClassifierOutcome.failure) (-7) demoState =
      .ok (true, demoState) :=
  (chunk_size_unvalidated (fun _ => ClassifierOutcome.failure) demoState
    { account := { email := "user@example.com", name := "User" }
    , history := [{ url := "https://a.com/x", title := none }] }
    rfl (-7)).1 (by decide)

/-- C9: when no chunk report exists at index 0, finalizeDailyReport returns
the all-zero neutral report and leaves the job state unchanged — in
particular the daily-report key is not written. -/
theorem finalize_empty_returns_neutral_without_write (s : JobState)
    (h : lookupA s.chunkReports 0 = none) :
    finalizeDailyReport s = (neutralReport, s) := by
  have hcol : collectChunkReports s.chunkReports (s.chunkReports.length + 1) 0 = [] := by
    simp [collectChunkReports, h]
  simp [finalizeDailyReport, hcol]

/-- A closed instance for C9: a store holding only an entry at index 2 has
no entry at index 0, so finalize returns the neutral report and changes
nothing. -/
theorem finalize_empty_returns_neutral_without_write_witness :
    finalizeDailyReport
        { history := none, chunkProgress := none
        , chunkReports := [(2, neutralReport)], dailyReport := none } =
      (neutralReport,
        { history := none, chunkProgress := none
        , chunkReports := [(2, neutralReport)], dailyReport := none }) :=
  finalize_empty_returns_neutral_without_write _ (by decide)

/-! ## The claims about response extraction (C7) -/

theorem findIdx?_eq_of_first (c : Char) :
    ∀ (cs : List Char) (p i : Nat), cs[p]? = some c →
      (∀ m, m < p → cs[m]? ≠ some c) →
      cs.findIdx? (fun x => x == c) i = some (i + p) := by
  intro cs
  induction cs with
  | nil => intro p i hp _; simp at hp
  | cons x rest ih =>
    intro p i hp hfirst
    cases p with
    | zero =>
      simp only [List.getElem?_cons_zero, Option.some.injEq] at hp
      rw [List.findIdx?_cons, if_pos (by simp [hp])]
      simp
    | succ p' =>
      have hx : ¬(x == c) = true := by
        have h0 := hfirst 0 (Nat.succ_pos _)
        simp only [List.getElem?_cons_zero, ne_eq, Option.some.injEq] at h0
        simp [h0]
      rw [List.findIdx?_cons, if_neg hx]
      have hres := ih p' (i + 1) (by simpa using hp)
        (fun m hm => by simpa using hfirst (m + 1) (by omega))
      rw [hres]
      congr 1
      omega

theorem lastIdxOf_eq_of_last (c : Char) (cs : List Char) (q : Nat)
    (h : isLastIdxOf c cs q) : lastIdxOf c cs = some q := by
  obtain ⟨hq, hlast⟩ := h
  have hqlen : q < cs.length := by
    by_contra hc
    rw [List.getElem?_eq_none (Nat.le_of_not_lt hc)] at hq
    exact Option.noConfusion hq
  have hrev : cs.reverse[cs.length - 1 - q]? = some c := by
    rw [List.getElem?_reverse (by omega)]
    have heq : cs.length - 1 - (cs.length - 1 - q) = q := by omega
    rw [heq]
    exact hq
  have hrevfirst : ∀ m, m < cs.length - 1 - q → cs.reverse[m]? ≠ some c := by
    intro m hm
    rw [List.getElem?_reverse (by omega)]
    exact hlast (cs.length - 1 - m) (by omega) (by omega)
  have hfind := findIdx?_eq_of_first c cs.reverse (cs.length - 1 - q) 0 hrev hrevfirst
  rw [lastIdxOf, hfind]
  simp
  omega

/-- C7 amended: response parsing extracts the substring running from the
first open brace of the response through its last close brace (the greedy
regex match), and parses that substring as the chunk report; when that
substring fails to parse the response is treated as a classification
failure, yielding the neutral report. -/
theorem greedy_extraction_characterized (content : String) (p q : Nat)
    (hp : isFirstIdxOf '\x7b' content.toList p)
    (hq : isLastIdxOf '\x7d' content.toList q)
    (hpq : p < q) :
    analyzeChunk (ClassifierOutcome.response content) =
      (match jsonParse (String.mk ((content.toList.drop p).take (q - p + 1))) with
       | some v => decodeDailyReport v
       | none => neutralReport) := by
  obtain ⟨hp1, hp2⟩ := hp
  have hfind : List.findIdx? (fun x => x == '\x7b') content.data = some p := by
    simpa using findIdx?_eq_of_first '\x7b' content.toList p 0 hp1 hp2
  have hlast : lastIdxOf '\x7d' content.data = some q :=
    lastIdxOf_eq_of_last '\x7d' content.toList q hq
  have hcand : extractJsonCandidate content =
      some (String.mk ((content.toList.drop p).take (q - p + 1))) := by
    simp [extractJsonCandidate, hfind, hlast, hpq, String.toList]
  simp only [analyzeChunk, hcand]
  cases jsonParse (String.mk ((content.toList.drop p).take (q - p + 1))) <;> rfl

/-- A closed instance for the amended C7: a response with prose before the
braces; the greedy candidate spans indices 3 through 19 and parses, so the
parsed report is returned. -/
theorem greedy_extraction_characterized_witness :
    analyzeChunk (ClassifierOutcome.response "ab \x7b\"totalVisits\":2\x7d") =
      { totalVisits := 2, categories := [], mostVisitedSites := []
      , mostFrequentCategory := { category := "General", frequency := 0 }
      , mostFrequentSite := { url := "", category := "General", visits := 0 } } := by
  have h := greedy_extraction_characterized "ab \x7b\"totalVisits\":2\x7d" 3 19
    (by decide) (by decide) (by decide)
  exact h.trans (by decide)

/-- Counterexample for C7: on a response holding a balanced JSON object
followed by a further close brace, the first-balanced extraction the claim
describes parses the object (a non-neutral report), but the code's greedy
extraction spans through the trailing braces, fails to parse, and yields
the neutral report. -/
theorem greedy_not_first_balanced :
    analyzeChunk
        (ClassifierOutcome.response "\x7b\"totalVisits\":3\x7d \x7b\x7d") =
      neutralReport ∧
    analyzeChunkSpec
        (ClassifierOutcome.response "\x7b\"totalVisits\":3\x7d \x7b\x7d") =
      { totalVisits := 3, categories := [], mostVisitedSites := []
      , mostFrequentCategory := { category := "General", frequency := 0 }
      , mostFrequentSite := { url := "", category := "General", visits := 0 } } ∧
    ({ totalVisits := 3, categories := [], mostVisitedSites := []
     , mostFrequentCategory := { category := "General", frequency := 0 }
     , mostFrequentSite := { url := "", category := "General", visits := 0 } } :
        DailyReport) ≠ neutralReport := by
  refine ⟨by decide, by decide, by decide⟩

end BrowserHistory
